import Mathlib

set_option maxRecDepth 100000

/-!
Verification development for the `rust-blockchain` repository: a shallow
embedding of its account store, transaction pipeline, block builder and
crypto plumbing, with theorems settling the specification claims.

Conventions of the embedding:
* Rust `U256`/`U64` values are `Nat`s; the `uint` crate's arithmetic panics
  on overflow and underflow, which we model by a dedicated `trap` outcome.
* Byte strings are `List Nat` with entries below 256.
* External crates (bincode serialization, the `eth_trie` root over nonempty
  tries, the wasmtime runtime, the secp256k1 ECDSA core) are abstracted as
  parameters gathered in the `ExtDeps` structure; Keccak-256 is implemented concretely
  and checked against the repository's own test vector.
-/

/-! ## Keccak-256 (the `sha3` crate's `Keccak256`, used by `utils::crypto::hash`) -/

/-- One step of the degree-8 LFSR generating the Keccak round-constant
bit sequence (FIPS 202, Algorithm 5). -/
def keccakLfsrStep (R : Nat) : Nat :=
  ((R <<< 1) ^^^ ((R >>> 7) * 0x71)) &&& 0xFF

/-- The LFSR register after `t` steps, started at 1. -/
def keccakLfsr (t : Nat) : Nat :=
  (List.range t).foldl (fun R _ => keccakLfsrStep R) 1

/-- Bit `rc(t)` of the round-constant sequence. -/
def keccakRcBit (t : Nat) : Nat :=
  keccakLfsr t &&& 1

/-- Round constant of round `i`: bit `rc(7i + j)` placed at position
`2^j - 1` for `j = 0..6`. -/
def keccakRCval (i : Nat) : Nat :=
  (List.range 7).foldl (fun acc j => acc ||| (keccakRcBit (7 * i + j) <<< (2 ^ j - 1))) 0

/-- Round constants of Keccak-f[1600] (24 rounds). -/
def keccakRC : List Nat :=
  (List.range 24).map keccakRCval

/-- The ρ offsets as generated by the standard `(x,y) := (1,0)` walk:
step `t` assigns offset `(t+1)(t+2)/2 mod 64` to lane `x + 5y` and moves
to `(y, 2x + 3y mod 5)`; lane 0 keeps offset 0. -/
def keccakRhoWalk : List (Nat × Nat) :=
  ((List.range 24).foldl
    (fun (st : (Nat × Nat) × List (Nat × Nat)) t =>
      let x := st.1.1
      let y := st.1.2
      ((y, (2 * x + 3 * y) % 5),
        (x + 5 * y, ((t + 1) * (t + 2) / 2) % 64) :: st.2))
    ((1, 0), [])).2

/-- Rotation offsets of the ρ step, indexed by lane index `x + 5*y`. -/
def keccakRho : List Nat :=
  (List.range 25).map fun i => ((keccakRhoWalk.lookup i).getD 0)

/-- Left rotation of a 64-bit lane (`x < 2^64`, `n < 64`). -/
def rotl64 (x n : Nat) : Nat :=
  ((x <<< n) % 2 ^ 64) ||| (x >>> (64 - n))

/-- θ step of Keccak-f[1600] on a 25-lane state. -/
def keccakTheta (A : List Nat) : List Nat :=
  let C := (List.range 5).map fun x =>
    A.getD x 0 ^^^ A.getD (x + 5) 0 ^^^ A.getD (x + 10) 0 ^^^
      A.getD (x + 15) 0 ^^^ A.getD (x + 20) 0
  let D := (List.range 5).map fun x =>
    C.getD ((x + 4) % 5) 0 ^^^ rotl64 (C.getD ((x + 1) % 5) 0) 1
  (List.range 25).map fun i => A.getD i 0 ^^^ D.getD (i % 5) 0

/-- Combined ρ and π steps: the output lane `(x', y')` is the rotated input
lane `(x' + 3 y' mod 5, x')`. -/
def keccakRhoPi (A : List Nat) : List Nat :=
  (List.range 25).map fun j =>
    let x := (j % 5 + 3 * (j / 5)) % 5
    let y := j % 5
    rotl64 (A.getD (x + 5 * y) 0) (keccakRho.getD (x + 5 * y) 0)

/-- χ step of Keccak-f[1600]. -/
def keccakChi (B : List Nat) : List Nat :=
  (List.range 25).map fun i =>
    let x := i % 5
    let y := i / 5
    B.getD i 0 ^^^
      ((B.getD ((x + 1) % 5 + 5 * y) 0 ^^^ (2 ^ 64 - 1)) &&&
        B.getD ((x + 2) % 5 + 5 * y) 0)

/-- One round of Keccak-f[1600]: θ, ρ, π, χ, then ι with constant `rc`. -/
def keccakRound (A : List Nat) (rc : Nat) : List Nat :=
  let B := keccakChi (keccakRhoPi (keccakTheta A))
  (B.headD 0 ^^^ rc) :: B.tail

/-- The full Keccak-f[1600] permutation (24 rounds). -/
def keccakF (A : List Nat) : List Nat :=
  keccakRC.foldl keccakRound A

/-- Multi-rate padding for rate 136 with the Keccak domain byte `0x01`. -/
def keccakPad (msg : List Nat) : List Nat :=
  let r := 136 - msg.length % 136
  if r = 1 then msg ++ [0x81]
  else msg ++ 0x01 :: (List.replicate (r - 2) 0 ++ [0x80])

/-- Little-endian interpretation of a byte list as a lane. -/
def bytesToLane (bs : List Nat) : Nat :=
  bs.foldr (fun b acc => b + 256 * acc) 0

/-- Absorb one 136-byte block into the sponge state and permute. -/
def keccakAbsorbBlock (S block : List Nat) : List Nat :=
  keccakF <| (List.range 25).map fun i =>
    if i < 17 then S.getD i 0 ^^^ bytesToLane ((block.drop (8 * i)).take 8)
    else S.getD i 0

/-- Absorb `n` consecutive 136-byte blocks of `l`. -/
def keccakAbsorb (S l : List Nat) : Nat → List Nat
  | 0 => S
  | n + 1 => keccakAbsorb (keccakAbsorbBlock S (l.take 136)) (l.drop 136) n

/-- Keccak-256 of a byte string, as a list of 32 bytes.  This is
`utils::crypto::hash` (the `sha3` crate's `Keccak256` digest). -/
def keccak256 (msg : List Nat) : List Nat :=
  let p := keccakPad msg
  let S := keccakAbsorb (List.replicate 25 0) p (p.length / 136)
  ((List.range 4).map fun i =>
    (List.range 8).map fun j => (S.getD i 0 >>> (8 * j)) % 256).flatten

/-- The bytes of the string "The message", the input of the repository's
`utils::crypto::tests::it_hashes` test. -/
def theMessageBytes : List Nat :=
  [84, 104, 101, 32, 109, 101, 115, 115, 97, 103, 101]

/-- The embedded Keccak-256 agrees with the repository's own test vector for
`hash(b"The message")` (`utils/src/crypto.rs`, test `it_hashes`). -/
theorem keccak256_matches_repo_test_vector :
    keccak256 theMessageBytes =
      [174, 253, 38, 204, 75, 207, 36, 167, 252, 109, 46, 248, 163, 40, 95, 14,
       14, 198, 197, 2, 119, 153, 141, 102, 195, 214, 250, 111, 247, 123, 45, 64] := by
  decide

/-! ## Basic data model

Byte strings are `List Nat`; `H256` values are 32-byte lists, addresses
(`H160` / `types::account::Account`) are 20-byte lists.  `U256`/`U64` values
are `Nat`s; the `uint` crate backing `ethereum_types` panics (in every build
profile) when `+` overflows or `-` underflows, which the embedding models by
the `trap` outcome of the `PRes` monad below. -/

/-- Byte strings (entries are bytes, i.e. naturals below 256). -/
abbrev ByteL := List Nat

/-- 32-byte hashes (`ethereum_types::H256`). -/
abbrev H256 := List Nat

/-- 20-byte addresses (`ethereum_types::H160`, aliased `Account`). -/
abbrev Address := List Nat

/-- `H256::zero()`. -/
def H256.zero : H256 := List.replicate 32 0

/-- `H160::zero()`. -/
def Address.zero : Address := List.replicate 20 0

/-- The modulus of `U256`. -/
def U256MOD : Nat := 2 ^ 256

/-- The modulus of `U64`. -/
def U64MOD : Nat := 2 ^ 64

/-- Errors of the `chain` crate (`ChainError`) together with the
`types::error::TypeError` variants that cross into it through `?`/`From`.
The file `src/chain/src/error.rs` is not among the provided sources, so the
constructor set is modelled from the spec (§7) and from every use site in
the provided sources; payloads carry the underlying data rather than the
formatted strings the source builds from it. -/
inductive ChainError where
  | AccountNotFound (key : Address)
  | StorageNotFound (key : Address)
  | StoragePutError (key : Address)
  | NonceTooLow (nonce : Nat) (key : Address)
  | NonceTooHigh (nonce : Nat) (key : Address)
  | BlockNotFound (which : String)
  | InvalidBlockNumber (s : String)
  | NotAContractAccount (toAddr : Address)
  | RuntimeError (toAddr : Address) (msg : String)
  | MissingTransactionNonce (hash : H256)
  | MissingTransactionHash
  | MissingBlockHash
  | InvalidTransaction (msg : String)
  | EncodingDecodingError (msg : String)
  | TransactionNotFound (hash : H256)
  | TransactionNotVerified
  | CannotCreateRootHash
  | TrieError (msg : String)
  | ConversionError (msg : String)
  | RecoverError (msg : String)
  | VerifyError (msg : String)
deriving DecidableEq, Repr

/-- Outcome of running a piece of Rust code: a value, a returned error, or a
panic (`trap`, e.g. `uint` arithmetic overflow), which aborts the caller. -/
inductive PRes (α : Type) where
  | ok (a : α)
  | err (e : ChainError)
  | trap
deriving DecidableEq

/-- Sequencing of results: errors and panics propagate. -/
def PRes.bind {α β : Type} : PRes α → (α → PRes β) → PRes β
  | .ok a, f => f a
  | .err e, _ => .err e
  | .trap, _ => .trap

instance : Monad PRes where
  pure := PRes.ok
  bind := PRes.bind

/-- Extract the success value, if any. -/
def PRes.getOk? {α : Type} : PRes α → Option α
  | .ok a => some a
  | _ => none

/-- `U256` addition: the `uint` crate panics on overflow. -/
def u256Add (a b : Nat) : PRes Nat :=
  if a + b < U256MOD then .ok (a + b) else .trap

/-- `U256` subtraction: the `uint` crate panics on underflow. -/
def u256Sub (a b : Nat) : PRes Nat :=
  if b ≤ a then .ok (a - b) else .trap

/-- `U64` addition: the `uint` crate panics on overflow. -/
def u64Add (a b : Nat) : PRes Nat :=
  if a + b < U64MOD then .ok (a + b) else .trap

/-- `U64` subtraction: the `uint` crate panics on underflow. -/
def u64Sub (a b : Nat) : PRes Nat :=
  if b ≤ a then .ok (a - b) else .trap

/-! ## Accounts (`types/src/account.rs`, `chain/src/account.rs`) -/

/-- `types::account::AccountData`: per-account nonce, balance and optional
contract code. -/
structure AccountData where
  nonce : Nat
  balance : Nat
  code_hash : Option ByteL
deriving DecidableEq, Repr

/-- `AccountData::new`: nonce 0, balance 10000 (the literal in the source;
its doc comment claims zero), and the given code. -/
def AccountData.new (code_hash : Option ByteL) : AccountData :=
  { nonce := 0, balance := 10000, code_hash := code_hash }

/-- `AccountData::is_contract`. -/
def AccountData.is_contract (d : AccountData) : Bool :=
  d.code_hash.isSome

/-- `chain::account::AccountStorage`: the account trie, modelled as an
association list from address to `AccountData`.  The source stores the
bincode serialization of `AccountData` in an `eth_trie::EthTrie` and
deserializes on read; the embedding identifies a stored value with its
decoding (bincode round-trips), and an in-memory backend never fails, so
`insert` always succeeds and `get` on a missing key returns `Ok(None)`. -/
abbrev AccountStorage := List (Address × AccountData)

/-- Value stored under a key, innermost (most recent) binding first. -/
def AccountStorage.lookup (s : AccountStorage) (key : Address) : Option AccountData :=
  match s with
  | [] => none
  | (k, d) :: rest => if k = key then some d else AccountStorage.lookup rest key

/-- Replace the binding of `key` (or append it): `eth_trie` insert. -/
def AccountStorage.insertRaw (s : AccountStorage) (key : Address) (data : AccountData) :
    AccountStorage :=
  match s with
  | [] => [(key, data)]
  | (k, d) :: rest =>
    if k = key then (k, data) :: rest
    else (k, d) :: AccountStorage.insertRaw rest key data

/-- `AccountStorage::upsert`: write-through insert (an in-memory backend
cannot produce `StoragePutError`). -/
def AccountStorage.upsert (s : AccountStorage) (key : Address) (data : AccountData) :
    PRes AccountStorage :=
  .ok (s.insertRaw key data)

/-- `AccountStorage::add_account` (alias of `upsert`). -/
def AccountStorage.add_account (s : AccountStorage) (key : Address) (data : AccountData) :
    PRes AccountStorage :=
  s.upsert key data

/-- `AccountStorage::get_account`: a missing key is a trie hit returning no
value, surfaced as `StorageNotFound` (a backend `Err` would be
`AccountNotFound`, which an in-memory backend never produces). -/
def AccountStorage.get_account (s : AccountStorage) (key : Address) : PRes AccountData :=
  match s.lookup key with
  | some d => .ok d
  | none => .err (.StorageNotFound key)

/-- `AccountStorage::add_account_balance`: `balance += amount` (panics on
`U256` overflow), then write back.  The method mutates `self.trie` in
place, so the embedding returns the store alongside the result: on an
error or panic the store is whatever the mutations so far produced. -/
def AccountStorage.add_account_balance (s : AccountStorage) (key : Address) (amount : Nat) :
    PRes Unit × AccountStorage :=
  match s.get_account key with
  | .ok d =>
    (match u256Add d.balance amount with
     | .ok balance => (.ok (), s.insertRaw key { d with balance := balance })
     | .err e => (.err e, s)
     | .trap => (.trap, s))
  | .err e => (.err e, s)
  | .trap => (.trap, s)

/-- `AccountStorage::subtract_account_balance`: computes
`balance - amount` with `U256` subtraction (which panics on underflow) and
then clamps with `max(0, ·)` exactly as the source does, writing back in
place. -/
def AccountStorage.subtract_account_balance (s : AccountStorage) (key : Address)
    (amount : Nat) : PRes Unit × AccountStorage :=
  match s.get_account key with
  | .ok d =>
    (match u256Sub d.balance amount with
     | .ok balance => (.ok (), s.insertRaw key { d with balance := max 0 balance })
     | .err e => (.err e, s)
     | .trap => (.trap, s))
  | .err e => (.err e, s)
  | .trap => (.trap, s)

/-- `AccountStorage::transfer`: debit then credit, two separate in-place
writes; a failure of the credit leaves the debit applied (the documented
non-atomicity). -/
def AccountStorage.transfer (s : AccountStorage) (sender toAddr : Address) (amount : Nat) :
    PRes Unit × AccountStorage :=
  match s.subtract_account_balance sender amount with
  | (.ok _, s) => s.add_account_balance toAddr amount
  | (.err e, s) => (.err e, s)
  | (.trap, s) => (.trap, s)

/-- `AccountStorage::update_nonce`: requires the submitted nonce to be
exactly `stored + 1` (the `+ 1` is `U256` addition and panics at the
maximum), returning `NonceTooLow`/`NonceTooHigh` otherwise (leaving the
store untouched); on success stores the submitted nonce in place and
returns it. -/
def AccountStorage.update_nonce (s : AccountStorage) (key : Address) (nonce : Nat) :
    PRes Nat × AccountStorage :=
  match s.get_account key with
  | .ok d =>
    (match u256Add d.nonce 1 with
     | .ok succ =>
       if nonce < succ then (.err (.NonceTooLow nonce key), s)
       else if nonce > succ then (.err (.NonceTooHigh nonce key), s)
       else (.ok nonce, s.insertRaw key { d with nonce := nonce })
     | .err e => (.err e, s)
     | .trap => (.trap, s))
  | .err e => (.err e, s)
  | .trap => (.trap, s)

/-- Modelled from the spec: `AccountStorage::add_empty_account` is defined in
`src/chain/src/world_state.rs`, which is not among the provided sources.
Spec §4.2 describes it (`ensure(addr)`) as the "idempotent materialization of
an empty account when the `to` side of a transfer does not yet exist"; a
materialised account is a fresh `AccountData::new(None)` (spec §8 S1 gives
materialised accounts the initial balance of the default config). -/
def AccountStorage.add_empty_account (s : AccountStorage) (key : Address) :
    PRes Unit × AccountStorage :=
  match s.lookup key with
  | some _ => (.ok (), s)
  | none => (.ok (), s.insertRaw key (AccountData.new none))

/-! ## Transactions and blocks (`types/src/transaction.rs`, `types/src/block.rs`) -/

/-- `types::transaction::Transaction`.  The Rust field names `from`/`to` are
Lean keywords and appear here as `from_`/`to_`. -/
structure Transaction where
  from_ : Address
  to_ : Option Address
  hash : Option H256
  nonce : Option Nat
  value : Nat
  data : Option ByteL
  gas : Nat
  gas_price : Nat
deriving DecidableEq

/-- `types::transaction::TransactionKind`. -/
inductive TransactionKind where
  | Regular (from_ toAddr : Address) (value : Nat)
  | ContractDeployment (from_ : Address) (data : ByteL)
  | ContractExecution (from_ toAddr : Address) (data : ByteL)
deriving DecidableEq

/-- `types::transaction::TransactionReceipt` (`BlockNumber` unwrapped to a
plain number). -/
structure TransactionReceipt where
  block_hash : Option H256
  block_number : Option Nat
  contract_address : Option Address
  transaction_hash : H256
deriving DecidableEq

/-- `types::block::Block`. -/
structure Block where
  number : Nat
  hash : Option H256
  parent_hash : H256
  transactions : List Transaction
  transactions_root : H256
  state_root : H256
deriving DecidableEq

/-- External dependencies of the embedded code, kept abstract: the bincode
binary codec (deterministic but byte-level unspecified here), the
`eth_trie` root hash over nonempty tries, and the wasmtime contract
runtime (`runtime::contract::call_function`, whose internals only engage
the WASM engine).  Any instantiation yields an admissible model; theorems
quantify over it. -/
structure ExtDeps where
  /-- `bincode::serialize` of a `Transaction` (serde skips a `None` hash). -/
  serTx : Transaction → ByteL
  /-- `bincode::serialize` of a `Block` (serde skips a `None` hash). -/
  serBlock : Block → ByteL
  /-- `bincode::serialize` of an `(Address, U256)` pair. -/
  serPair : Address → Nat → ByteL
  /-- `eth_trie` root of a nonempty trie with the given insertions
  (key/value byte strings, in insertion order). -/
  trieRootNE : List (H256 × ByteL) → H256
  /-- `eth_trie` root of the account trie (`AccountStorage::root_hash`,
  total over the in-memory model). -/
  accountsRoot : AccountStorage → H256
  /-- `bincode::deserialize` of contract-call data into a
  `(&str, Vec<&str>)` pair; `none` is a decode failure. -/
  deserCall : ByteL → Option (String × List String)
  /-- `runtime::contract::call_function code function params`. -/
  callFunction : ByteL → String → List String → Except String Unit

/-- `utils::crypto::to_address`: Keccak-256 of the bytes after the first,
keeping the last 20 bytes. -/
def to_address (item : ByteL) : Address :=
  (keccak256 (item.drop 1)).drop 12

/-- `Transaction::transaction_hash`: the cached hash or
`MissingTransactionHash`. -/
def Transaction.transaction_hash (t : Transaction) : PRes H256 :=
  match t.hash with
  | some h => .ok h
  | none => .err .MissingTransactionHash

/-- `Transaction::hash`: serialize the transaction as-is, Keccak it, store
it in `hash` and return it. -/
def Transaction.hashTx (E : ExtDeps) (t : Transaction) : Transaction × H256 :=
  let h := keccak256 (E.serTx t)
  ({ t with hash := some h }, h)

/-- `Transaction::new`: build the transaction with `hash = None`,
`gas = gas_price = 10`, then bind the hash. -/
def Transaction.new (E : ExtDeps) (from_ : Address) (to_ : Option Address) (value : Nat)
    (nonce : Option Nat) (data : Option ByteL) : PRes Transaction :=
  let t : Transaction :=
    { from_ := from_, to_ := to_, value := value, nonce := nonce, hash := none,
      data := data, gas := 10, gas_price := 10 }
  .ok (t.hashTx E).1

/-- `Transaction::kind`: classify by the presence of `to` and `data`. -/
def Transaction.kind (t : Transaction) : PRes TransactionKind :=
  match t.to_, t.data with
  | some toAddr, none => .ok (.Regular t.from_ toAddr t.value)
  | none, some data => .ok (.ContractDeployment t.from_ data)
  | some toAddr, some data => .ok (.ContractExecution t.from_ toAddr data)
  | none, none => .err (.InvalidTransaction "kind")

/-- The root hash of an `eth_trie` holding no insertions: the Keccak-256 of
the RLP encoding `0x80` of the empty node (the canonical Ethereum empty
root `0x56e8…b421`).  `eth_trie` is an external crate; only its empty case
is needed concretely, the nonempty case stays abstract in `ExtDeps`. -/
def emptyTrieRoot : H256 := keccak256 [0x80]

/-- The key/value insertions `Transaction::to_trie` performs: each
transaction keyed by its `transaction_hash` with its serialization as
value, failing like the source on a missing hash. -/
def Transaction.to_trie (E : ExtDeps) : List Transaction → PRes (List (H256 × ByteL))
  | [] => .ok []
  | t :: ts => do
    let h ← t.transaction_hash
    let rest ← Transaction.to_trie E ts
    .ok ((h, E.serTx t) :: rest)

/-- `Transaction::root_hash`: the `eth_trie` root over the `to_trie`
insertions. -/
def Transaction.root_hash (E : ExtDeps) (transactions : List Transaction) : PRes H256 := do
  let entries ← Transaction.to_trie E transactions
  .ok (if entries.isEmpty then emptyTrieRoot else E.trieRootNE entries)

/-- `Block::new`: compute the transactions root, build the block with
`hash = None`, serialize, Keccak, and store the hash. -/
def Block.new (E : ExtDeps) (number : Nat) (parent_hash : H256)
    (transactions : List Transaction) (state_root : H256) : PRes Block := do
  let transactions_root ← Transaction.root_hash E transactions
  let b : Block :=
    { number := number, hash := none, parent_hash := parent_hash,
      transactions := transactions, transactions_root := transactions_root,
      state_root := state_root }
  .ok { b with hash := some (keccak256 (E.serBlock b)) }

/-- `Block::block_hash`: the stored hash or `MissingBlockHash`. -/
def Block.block_hash (b : Block) : PRes H256 :=
  match b.hash with
  | some h => .ok h
  | none => .err .MissingBlockHash

/-- `Block::genesis`: `Block::new(0, zero, [], zero)`. -/
def Block.genesis (E : ExtDeps) : PRes Block :=
  Block.new E 0 H256.zero [] H256.zero

/-- `AccountStorage::add_contract_account`: read the owner's nonce,
serialize `(owner, nonce)` with bincode, derive the contract address with
`to_address`, and store a fresh `AccountData::new(Some(code))` there in
place, returning the derived address (an in-memory `upsert` cannot
fail). -/
def AccountStorage.add_contract_account (E : ExtDeps) (s : AccountStorage) (key : Address)
    (data : ByteL) : PRes Address × AccountStorage :=
  match s.get_account key with
  | .ok acct =>
    let account := to_address (E.serPair key acct.nonce)
    (.ok account, s.insertRaw account (AccountData.new (some data)))
  | .err e => (.err e, s)
  | .trap => (.trap, s)

/-! ## The chain (`chain/src/blockchain.rs`, `chain/src/transaction.rs`) -/

/-- `chain::blockchain::BlockChain` together with its
`TransactionStorage` (`mempool`, `receipts`); the `Arc<Mutex<_>>`
wrappers are flattened since one tick runs the loop body to completion
under the single chain mutex.  The `WorldState` field (a cache of the last
state-trie root, from the absent `world_state.rs`) carries no behaviour a
claim depends on and is omitted. -/
structure BlockChain where
  accounts : AccountStorage
  blocks : List Block
  mempool : List Transaction
  receipts : List (H256 × TransactionReceipt)
deriving DecidableEq

/-- Insert into the receipts map (`DashMap::insert`): replace the binding
of the key or append it. -/
def insertReceipt (m : List (H256 × TransactionReceipt)) (key : H256)
    (r : TransactionReceipt) : List (H256 × TransactionReceipt) :=
  match m with
  | [] => [(key, r)]
  | (k, v) :: rest =>
    if k = key then (k, r) :: rest else (k, v) :: insertReceipt rest key r

/-- `BlockChain::new`: empty accounts, the genesis block, empty transaction
storage. -/
def BlockChain.new (E : ExtDeps) : PRes BlockChain := do
  let g ← Block.genesis E
  .ok { accounts := [], blocks := [g], mempool := [], receipts := [] }

/-- `BlockChain::get_current_block`: the last stored block. -/
def BlockChain.get_current_block (bc : BlockChain) : PRes Block :=
  match bc.blocks.getLast? with
  | some b => .ok b
  | none => .err (.BlockNotFound "current block")

/-- `BlockChain::get_block_by_number`: computes the index
`block_number - 1` with `U64` subtraction (which panics at 0) and returns
the block stored at that index. -/
def BlockChain.get_block_by_number (bc : BlockChain) (block_number : Nat) : PRes Block := do
  let index ← u64Sub block_number 1
  match bc.blocks[index]? with
  | some b => .ok b
  | none => .err (.BlockNotFound "current block")

/-- `BlockChain::new_block`: number is tip + 1, parent hash is the tip's
hash, the block is appended, and the function returns
`get_block_by_number(number)` on the updated chain (also returning the
updated chain state). -/
def BlockChain.new_block (E : ExtDeps) (bc : BlockChain) (transactions : List Transaction)
    (state_trie : H256) : PRes (Block × BlockChain) := do
  let current_block ← bc.get_current_block
  let number ← u64Add current_block.number 1
  let parent_hash ← current_block.block_hash
  let block ← Block.new E number parent_hash transactions state_trie
  let bc := { bc with blocks := bc.blocks ++ [block] }
  let ret ← bc.get_block_by_number number
  .ok (ret, bc)

/-- `BlockChain::process_transaction`: materialise the `to` account when
present, dispatch on the transaction kind (a failed contract deployment is
discarded by `.ok()`), update the sender's nonce, and produce a receipt
with no block fields yet.  A transaction without a nonce fails
`MissingTransactionNonce`.  The method takes `&mut self` but reads and
writes only `self.accounts`, so the embedding threads the account store,
which keeps any mutations already applied when a later step fails. -/
def BlockChain.process_transaction (E : ExtDeps) (accounts : AccountStorage)
    (t : Transaction) : PRes TransactionReceipt × AccountStorage :=
  match t.transaction_hash with
  | .ok transaction_hash =>
    (match t.nonce with
     | some nonce =>
       (match (match t.to_ with
               | some toAddr => accounts.add_empty_account toAddr
               | none => (.ok (), accounts)) with
        | (.ok _, accounts) =>
          (match t.kind with
           | .ok kind =>
             (match (match kind with
                     | .Regular from_ toAddr value =>
                       (match AccountStorage.transfer accounts from_ toAddr value with
                        | (.ok _, s) => ((.ok none : PRes (Option Address)), s)
                        | (.err e, s) => (.err e, s)
                        | (.trap, s) => (.trap, s))
                     | .ContractDeployment from_ data =>
                       (match AccountStorage.add_contract_account E accounts from_ data with
                        | (.ok addr, s) => (.ok (some addr), s)
                        | (.err _, s) => (.ok none, s)
                        | (.trap, s) => (.trap, s))
                     | .ContractExecution _from toAddr data =>
                       (match AccountStorage.get_account accounts toAddr with
                        | .ok acct =>
                          (match acct.code_hash with
                           | none => (.err (.NotAContractAccount toAddr), accounts)
                           | some code =>
                             match E.deserCall data with
                             | none => (.err (.EncodingDecodingError "call data"), accounts)
                             | some fp =>
                               match E.callFunction code fp.1 fp.2 with
                               | .ok _ => (.ok none, accounts)
                               | .error msg => (.err (.RuntimeError toAddr msg), accounts))
                        | .err e => (.err e, accounts)
                        | .trap => (.trap, accounts))) with
              | (.ok contract_address, accounts) =>
                (match AccountStorage.update_nonce accounts t.from_ nonce with
                 | (.ok _, accounts) =>
                   (.ok { block_hash := none, block_number := none,
                          contract_address := contract_address,
                          transaction_hash := transaction_hash }, accounts)
                 | (.err e, accounts) => (.err e, accounts)
                 | (.trap, accounts) => (.trap, accounts))
              | (.err e, accounts) => (.err e, accounts)
              | (.trap, accounts) => (.trap, accounts))
           | .err e => (.err e, accounts)
           | .trap => (.trap, accounts))
        | (.err e, accounts) => (.err e, accounts)
        | (.trap, accounts) => (.trap, accounts))
     | none => (.err (.MissingTransactionNonce transaction_hash), accounts))
  | .err e => (.err e, accounts)
  | .trap => (.trap, accounts)

/-- The `for` loop of `BlockChain::process_transactions`: successful
transactions accumulate their receipt and themselves; a `NonceTooHigh`
failure re-appends the transaction at the mempool tail; any other error
drops it.  In every case the account store keeps the mutations the
processing applied before failing. -/
def BlockChain.processLoop (E : ExtDeps) (bc : BlockChain)
    (receipts : List TransactionReceipt) (processed : List Transaction) :
    List Transaction → PRes (List TransactionReceipt × List Transaction × BlockChain)
  | [] => .ok (receipts, processed, bc)
  | t :: rest =>
    match BlockChain.process_transaction E bc.accounts t with
    | (.ok r, accounts') =>
      BlockChain.processLoop E { bc with accounts := accounts' }
        (receipts ++ [r]) (processed ++ [t]) rest
    | (.err (.NonceTooHigh _ _), accounts') =>
      BlockChain.processLoop E
        { bc with
          accounts := accounts'
          mempool := bc.mempool ++ [t] } receipts processed rest
    | (.err _, accounts') =>
      BlockChain.processLoop E { bc with accounts := accounts' } receipts processed rest
    | (.trap, _) => .trap

/-- Reference trace of one tick: each drained transaction paired with the
outcome of its sequential processing (`none` for success, the error
otherwise), threading the account store exactly as the loop does. -/
def tickTrace (E : ExtDeps) (accounts : AccountStorage) :
    List Transaction → PRes (List (Transaction × Option ChainError) × AccountStorage)
  | [] => .ok ([], accounts)
  | t :: rest =>
    match BlockChain.process_transaction E accounts t with
    | (.ok _, accounts') => do
      let (tr, a) ← tickTrace E accounts' rest
      .ok ((t, none) :: tr, a)
    | (.err e, accounts') => do
      let (tr, a) ← tickTrace E accounts' rest
      .ok ((t, some e) :: tr, a)
    | (.trap, _) => .trap

/-- The receipt-stamping loop of `BlockChain::process_transactions`: each
accumulated receipt gets the returned block's number and hash and is
inserted into the receipts map under its `transaction_hash`. -/
def stampReceipts (bc : BlockChain) (block : Block) :
    List TransactionReceipt → BlockChain
  | [] => bc
  | r :: rest =>
    let r := { r with block_number := some block.number, block_hash := block.hash }
    stampReceipts
      { bc with receipts := insertReceipt bc.receipts r.transaction_hash r } block rest

/-- `BlockChain::process_transactions` (one tick): drain the mempool; if
nonempty, run the loop, commit the account-trie root, seal a new block over
the processed transactions, and stamp the accumulated receipts with the
block `new_block` returned. -/
def BlockChain.process_transactions (E : ExtDeps) (bc : BlockChain) : PRes BlockChain :=
  let transactions := bc.mempool
  let bc := { bc with mempool := [] }
  if transactions.isEmpty then .ok bc
  else do
    let (receipts, processed, bc) ← BlockChain.processLoop E bc [] [] transactions
    let state_trie := E.accountsRoot bc.accounts
    let (block, bc) ← bc.new_block E processed state_trie
    .ok (stampReceipts bc block receipts)

/-! ## Signing (`utils/src/crypto.rs`, `types/src/transaction.rs`)

The secp256k1 curve operations live in the external `secp256k1` crate; the
embedding abstracts them as an `EcdsaApi`: public keys and secret keys are
opaque `Nat` handles, a recoverable signature is its compact form, a pair
of a recovery id and 64 signature bytes.  The repository's plumbing around
the crate is embedded concretely. -/

/-- The external `secp256k1` crate's operations.  `parse_recoverable_ok`
and `parse_compact_ok` are the acceptance domains of
`RecoverableSignature::from_compact` / `Signature::from_compact` on
64-byte inputs (scalar-range checks internal to the crate). -/
structure EcdsaApi where
  /-- `SecretKey::public_key`. -/
  pk_of : Nat → Nat
  /-- `Secp256k1::sign_ecdsa_recoverable` on a 32-byte message hash,
  already in compact form `(recovery id, 64 bytes)`. -/
  sign_ecdsa_recoverable : ByteL → Nat → Nat × ByteL
  /-- `Secp256k1::recover_ecdsa`; `none` is a recovery failure. -/
  recover_ecdsa : ByteL → Nat × ByteL → Option Nat
  /-- `Secp256k1::verify_ecdsa` (true iff the signature verifies). -/
  verify_ecdsa : ByteL → ByteL → Nat → Bool
  /-- `PublicKey::serialize_uncompressed` (65 bytes). -/
  serialize_uncompressed : Nat → ByteL
  /-- Domain of `RecoverableSignature::from_compact` on 64 bytes. -/
  parse_recoverable_ok : ByteL → Bool
  /-- Domain of `ecdsa::Signature::from_compact` on 64 bytes. -/
  parse_compact_ok : ByteL → Bool

/-- `utils::crypto::Signature`: the `(v, r, s)` triple (`r`, `s` as 32-byte
strings). -/
structure Signature where
  v : Nat
  r : ByteL
  s : ByteL
deriving DecidableEq

namespace Utils

/-- `utils::crypto::hash_message`: Keccak the message (the digest is always
32 bytes, so `Message::from_slice` cannot fail). -/
def hash_message (message : ByteL) : ByteL := keccak256 message

/-- `utils::crypto::sign_recovery`: sign the Keccak digest recoverably. -/
def sign_recovery (api : EcdsaApi) (message : ByteL) (key : Nat) : Nat × ByteL :=
  api.sign_ecdsa_recoverable (hash_message message) key

/-- `impl From<RecoverableSignature> for Signature`: split the compact form
into `v` (the recovery id) and the two 32-byte halves. -/
def signatureOfRecoverable (rsig : Nat × ByteL) : Signature :=
  { v := rsig.1, r := rsig.2.take 32, s := rsig.2.drop 32 }

/-- `impl TryInto<RecoverableSignature> for Signature`: rebuild the 64
compact bytes from `r ++ s`, convert `v` through `i32` (fails above
`i32::MAX`) into a `RecoveryId` (the crate accepts 0..=3), and parse the
compact form. -/
def recoverableOfSignature (api : EcdsaApi) (sig : Signature) : PRes (Nat × ByteL) :=
  let bytes := sig.r ++ sig.s
  if sig.v ≥ 2 ^ 31 then .err (.ConversionError "u64 to i32")
  else if sig.v > 3 then .err (.ConversionError "i32 to RecoveryId")
  else if bytes.length = 64 ∧ api.parse_recoverable_ok bytes then .ok (sig.v, bytes)
  else .err (.ConversionError "signature to RecoverableSignature")

/-- `utils::crypto::verify`: Keccak the message, parse the compact
signature, and run the crate's ECDSA verification. -/
def verify (api : EcdsaApi) (message signature : ByteL) (key : Nat) : PRes Bool :=
  let m := hash_message message
  if signature.length = 64 ∧ api.parse_compact_ok signature then
    .ok (api.verify_ecdsa m signature key)
  else .err (.VerifyError "from_compact")

/-- `utils::crypto::recover_public_key`: Keccak the message, rebuild the
recoverable signature from the compact bytes and recovery id, and recover
the public key. -/
def recover_public_key (api : EcdsaApi) (message signature : ByteL) (recovery_id : Nat) :
    PRes Nat :=
  let m := hash_message message
  if recovery_id > 3 then .err (.ConversionError "i32 to RecoveryId")
  else if signature.length = 64 ∧ api.parse_recoverable_ok signature then
    match api.recover_ecdsa m (recovery_id, signature) with
    | some key => .ok key
    | none => .err (.RecoverError "recover_ecdsa")
  else .err (.VerifyError "from_compact")

/-- `utils::crypto::public_key_address`: `to_address` of the uncompressed
serialization. -/
def public_key_address (api : EcdsaApi) (key : Nat) : Address :=
  to_address (api.serialize_uncompressed key)

end Utils

/-- `types::transaction::SignedTransaction`. -/
structure SignedTransaction where
  v : Nat
  r : ByteL
  s : ByteL
  raw_transaction : ByteL
  transaction_hash : H256
deriving DecidableEq

/-- `Transaction::sign`: serialize the transaction, sign recoverably,
split the signature into `(v, r, s)`, and hash the compact signature bytes
into `transaction_hash` (the only fallible step in the source,
`Message::from_slice` on a 32-byte digest, cannot fail). -/
def Transaction.sign (E : ExtDeps) (api : EcdsaApi) (t : Transaction) (key : Nat) :
    SignedTransaction :=
  let encoded := E.serTx t
  let rsig := Utils.sign_recovery api encoded key
  let signature_bytes := rsig.2
  let sig := Utils.signatureOfRecoverable rsig
  { v := sig.v, r := sig.r, s := sig.s, raw_transaction := encoded,
    transaction_hash := keccak256 signature_bytes }

/-- `Transaction::recover_pieces`: the raw transaction bytes, and the
recovery id and compact bytes of the rebuilt recoverable signature. -/
def Transaction.recover_pieces (api : EcdsaApi) (st : SignedTransaction) :
    PRes (ByteL × Nat × ByteL) := do
  let message := st.raw_transaction
  let sig : Signature := { v := st.v, r := st.r, s := st.s }
  let rsig ← Utils.recoverableOfSignature api sig
  .ok (message, rsig.1, rsig.2)

/-- `Transaction::verify`: recover the public key from the signature, run
ECDSA verification against it, and require the recovered key's address to
match the expected sender. -/
def Transaction.verify (api : EcdsaApi) (st : SignedTransaction)
    (address : Address) : PRes Bool := do
  let (message, recovery_id, signature_bytes) ← Transaction.recover_pieces api st
  let key ← Utils.recover_public_key api message signature_bytes recovery_id
  let verified ← Utils.verify api message signature_bytes key
  let addresses_match : Bool := decide (address = Utils.public_key_address api key)
  .ok (verified && addresses_match)

/-! ## Reachable chain states and concrete test fixtures -/

/-- Chain states reachable from `BlockChain::new` by sealing blocks with
`new_block`. -/
inductive Reachable (E : ExtDeps) : BlockChain → Prop where
  | genesis (bc : BlockChain) (h : BlockChain.new E = .ok bc) : Reachable E bc
  | step (bc bc' : BlockChain) (txs : List Transaction) (root : H256) (b : Block)
      (hr : Reachable E bc) (h : bc.new_block E txs root = .ok (b, bc')) :
      Reachable E bc'

/-- The structural invariant of the stored block sequence: nonempty, block
`i` carries number `i` and a computed hash, and each block's parent hash is
the previous block's hash. -/
def chainInv (bs : List Block) : Prop :=
  bs ≠ [] ∧
  (∀ (i : Nat) (b : Block), bs[i]? = some b → b.number = i ∧ b.hash.isSome) ∧
  (∀ (i : Nat) (b b' : Block), bs[i]? = some b → bs[i + 1]? = some b' →
    some b'.parent_hash = b.hash)

/-- Detects the `NonceTooHigh` outcome in a tick trace. -/
def isHighErr : Option ChainError → Bool
  | some (.NonceTooHigh _ _) => true
  | _ => false

/-- A concrete instantiation of the external dependencies, used by the
closed witnesses and counterexamples: constant serializers and roots, a
runtime that accepts every call, a decoder that rejects every payload. -/
def extC : ExtDeps where
  serTx := fun _ => []
  serBlock := fun _ => []
  serPair := fun _ _ => []
  trieRootNE := fun _ => H256.zero
  accountsRoot := fun _ => H256.zero
  deserCall := fun _ => none
  callFunction := fun _ _ _ => .ok ()

/-- A concrete instantiation of the secp256k1 interface satisfying the
crate's sign/recover/verify contract, used by the closed witnesses. -/
def apiC : EcdsaApi where
  pk_of := fun _ => 0
  sign_ecdsa_recoverable := fun _ _ => (0, List.replicate 64 0)
  recover_ecdsa := fun _ _ => some 0
  verify_ecdsa := fun _ _ _ => true
  serialize_uncompressed := fun _ => List.replicate 65 0
  parse_recoverable_ok := fun _ => true
  parse_compact_ok := fun _ => true

/-- Fixture address A (a funded externally-owned account). -/
def addrA : Address := List.replicate 20 1

/-- Fixture address B (a transfer recipient). -/
def addrB : Address := List.replicate 20 2

/-- Fixture address C (never materialised). -/
def addrC : Address := List.replicate 20 3

/-- The genesis block under `extC`. -/
def genC : Block :=
  match Block.genesis extC with
  | .ok b => b
  | _ =>
    { number := 0, hash := none, parent_hash := H256.zero, transactions := [],
      transactions_root := H256.zero, state_root := H256.zero }

/-- The freshly constructed chain under `extC` (`BlockChain::new`). -/
def bcG : BlockChain :=
  { accounts := [], blocks := [genC], mempool := [], receipts := [] }

/-- A fixture account store: address A holds a fresh default account. -/
def accsA : AccountStorage := [(addrA, AccountData.new none)]

/-- Fixture transaction: transfer of 10 from A to B with nonce 1. -/
def txReg : Transaction :=
  { from_ := addrA, to_ := some addrB, hash := some (List.replicate 32 5),
    nonce := some 1, value := 10, data := none, gas := 10, gas_price := 10 }

/-- Fixture transaction: transfer from A with the gapped nonce 3. -/
def txHigh : Transaction :=
  { from_ := addrA, to_ := some addrB, hash := some (List.replicate 32 6),
    nonce := some 3, value := 10, data := none, gas := 10, gas_price := 10 }

/-- Fixture transaction: no recipient and no payload (invalid kind, an
error that is neither success nor `NonceTooHigh`). -/
def txBad : Transaction :=
  { from_ := addrC, to_ := none, hash := some (List.replicate 32 7),
    nonce := some 1, value := 0, data := none, gas := 10, gas_price := 10 }

/-- Fixture transaction: a contract deployment from the missing address C. -/
def txDeployC : Transaction :=
  { from_ := addrC, to_ := none, hash := some (List.replicate 32 8),
    nonce := some 1, value := 0, data := some [0], gas := 10, gas_price := 10 }

/-- Fixture chain: fresh chain with account A funded and a mempool holding
a gapped-nonce transfer, a valid transfer, and an invalid transaction. -/
def bcTick : BlockChain :=
  { accounts := accsA, blocks := [genC], mempool := [txHigh, txReg, txBad],
    receipts := [] }


/-- Fixture chain: the fresh chain `bcG` after sealing one (empty) block
with `new_block`; its stored blocks carry numbers `[0, 1]`. -/
def bcTwo : BlockChain :=
  match bcG.new_block extC [] H256.zero with
  | .ok (_, bc) => bc
  | _ => bcG

/-- Fixture account store whose single account holds the maximal `U256`
nonce. -/
def accsMax : AccountStorage :=
  [(addrA, { nonce := 2 ^ 256 - 1, balance := 0, code_hash := none })]

/-! ## Claim theorems -/

/-- C1: in a tick that drains a non-empty mempool, the accumulated
receipts are NOT stamped with the newly sealed block's number and hash:
on the concrete fixture tick (funded account A, mempool with one valid
transfer) the sealed block is block number 1 holding exactly the processed
transaction, yet the stored receipt carries block number 0 and the genesis
hash, because `new_block` returns `get_block_by_number(number)` =
`blocks[number - 1]`, the parent.  The claim states the spec's intent;
the code stamps the parent block's data. -/
theorem C1_receipts_stamped_with_parent_block :
    ((BlockChain.process_transactions extC bcTick).getOk?.map fun bc =>
        bc.receipts.map fun (p : H256 × TransactionReceipt) =>
          (p.1, p.2.transaction_hash))
      = some [(List.replicate 32 5, List.replicate 32 5)] ∧
    ((BlockChain.process_transactions extC bcTick).getOk?.map fun bc =>
        bc.receipts.map fun (p : H256 × TransactionReceipt) => p.2.block_number)
      = some [some 0] ∧
    ((BlockChain.process_transactions extC bcTick).getOk?.map fun bc =>
        bc.receipts.map fun (p : H256 × TransactionReceipt) => p.2.block_hash)
      = some [genC.hash] ∧
    ((BlockChain.process_transactions extC bcTick).getOk?.map fun bc =>
        bc.blocks.map Block.number) = some [0, 1] ∧
    ((BlockChain.process_transactions extC bcTick).getOk?.map fun bc =>
        bc.blocks.getLast?.map Block.transactions) = some (some [txReg]) := by
  refine ⟨by decide, by decide, by decide, by decide, by decide⟩

/-- C2: on the fixture chain `bcTwo`, whose stored sequence satisfies
`blocks[i].number = i` (numbers `[0, 1]`), `get_block_by_number N` does
NOT return the block numbered `N`: it computes index `N - 1` with `U64`
subtraction, so `N = 1` yields the genesis block (number 0), `N = 2`
yields block 1, and `N = 0` panics on `U64` underflow instead of yielding
genesis. -/
theorem C2_get_block_by_number_off_by_one :
    bcTwo.blocks.map Block.number = [0, 1] ∧
    (bcTwo.get_block_by_number 1).getOk?.map Block.number = some 0 ∧
    (bcTwo.get_block_by_number 2).getOk?.map Block.number = some 1 ∧
    bcTwo.get_block_by_number 0 = .trap := by
  refine ⟨by decide, by decide, by decide, by decide⟩

/-- C3: `subtract_account_balance` does NOT saturate at zero: on account A
with balance 10000, subtracting 10001 panics inside the `U256`
subtraction (`uint` panics on underflow before the source's
`max(0, balance)` clamp can apply), while subtracting 10 within the
balance succeeds and stores 9990. -/
theorem C3_sub_balance_traps_on_underflow :
    (AccountStorage.subtract_account_balance accsA addrA 10001).1 = .trap ∧
    (AccountStorage.subtract_account_balance accsA addrA 10).1 = .ok () ∧
    ((AccountStorage.subtract_account_balance accsA addrA 10).2.lookup addrA)
      = some { nonce := 0, balance := 9990, code_hash := none } := by
  refine ⟨by decide, by decide, by decide⟩

/-- Looking up the key just written by `insertRaw` yields the written
value. -/
theorem AccountStorage.lookup_insertRaw_self (s : AccountStorage) (k : Address)
    (d : AccountData) : (s.insertRaw k d).lookup k = some d := by
  induction s with
  | nil => simp [AccountStorage.insertRaw, AccountStorage.lookup]
  | cons hd tl ih =>
    by_cases h : hd.1 = k <;>
      simp [AccountStorage.insertRaw, AccountStorage.lookup, h, ih]

/-- C4, counterexample: a freshly materialised account does not hold
balance 0 — `AccountData::new` writes balance 10000, and the contract
account deployed on the fixture store at the derived address also holds
balance 10000. -/
theorem C4_counterexample_initial_balance :
    (AccountData.new none).balance = 10000 ∧
    AccountData.new none ≠ { nonce := 0, balance := 0, code_hash := none } ∧
    (match AccountStorage.add_contract_account extC accsA addrA [0] with
      | (.ok addr, s) => (s.lookup addr).map AccountData.balance
      | _ => none)
      = some 10000 := by
  refine ⟨by decide, by decide, by decide⟩

/-- C4, amended: every account newly created by the state store starts
with nonce 0 and balance 10000: `AccountData::new code` is
`{0, 10000, code}`, and `add_contract_account owner code`, when the owner
exists with nonce `n`, returns the address derived from the serialized
`(owner, n)` pair and stores `{0, 10000, Some(code)}` there. -/
theorem C4_amended_new_accounts (E : ExtDeps) (s : AccountStorage) (key : Address)
    (data : ByteL) (acct : AccountData) (h : s.get_account key = .ok acct) :
    (∀ code, AccountData.new code = { nonce := 0, balance := 10000, code_hash := code }) ∧
    AccountStorage.add_contract_account E s key data =
      (.ok (to_address (E.serPair key acct.nonce)),
        s.insertRaw (to_address (E.serPair key acct.nonce)) (AccountData.new (some data))) ∧
    ((s.insertRaw (to_address (E.serPair key acct.nonce))
        (AccountData.new (some data))).lookup (to_address (E.serPair key acct.nonce)))
      = some { nonce := 0, balance := 10000, code_hash := some data } := by
  refine ⟨fun code => rfl, ?_, ?_⟩
  · simp [AccountStorage.add_contract_account, h]
  · rw [AccountStorage.lookup_insertRaw_self]
    rfl

/-- C4, amended, witness: the theorem applied to the fixture store with
the funded account A and code `[0]`. -/
theorem C4_amended_new_accounts_witness :
    AccountStorage.add_contract_account extC accsA addrA [0] =
      (.ok (to_address (extC.serPair addrA (AccountData.new none).nonce)),
        accsA.insertRaw (to_address (extC.serPair addrA (AccountData.new none).nonce))
          (AccountData.new (some [0]))) :=
  (C4_amended_new_accounts extC accsA addrA [0] (AccountData.new none) (by decide)).2.1

/-- C5, counterexample: on an account whose stored nonce is the maximal
`U256` value, `update_nonce` with submitted nonce 0 does not return
`NonceTooLow` (0 is below stored + 1): the computation `stored + 1`
overflows `U256` and panics. -/
theorem C5_counterexample_nonce_max :
    (AccountStorage.update_nonce accsMax addrA 0).1 = .trap := by
  decide

/-- C5, amended: for every existing account with stored nonce `n`
satisfying `n + 1 < 2^256` (so the successor does not overflow) and every
submitted nonce `s`, `update_nonce` returns `NonceTooLow` iff
`s < n + 1`, `NonceTooHigh` iff `s > n + 1`, and for `s = n + 1` it
succeeds, storing nonce `s` and leaving balance and code unchanged. -/
theorem C5_amended_update_nonce (s : AccountStorage) (key : Address) (d : AccountData)
    (sub : Nat) (h : s.lookup key = some d) (hb : d.nonce + 1 < 2 ^ 256) :
    ((s.update_nonce key sub).1 = .err (.NonceTooLow sub key) ↔ sub < d.nonce + 1) ∧
    ((s.update_nonce key sub).1 = .err (.NonceTooHigh sub key) ↔ sub > d.nonce + 1) ∧
    (sub = d.nonce + 1 →
      s.update_nonce key sub = (.ok sub, s.insertRaw key { d with nonce := sub }) ∧
      (s.insertRaw key { d with nonce := sub }).lookup key =
        some { nonce := sub, balance := d.balance, code_hash := d.code_hash }) := by
  have hget : s.get_account key = .ok d := by
    simp [AccountStorage.get_account, h]
  have hsucc : u256Add d.nonce 1 = .ok (d.nonce + 1) := by
    simp only [u256Add, U256MOD]
    rw [if_pos hb]
  rcases Nat.lt_trichotomy sub (d.nonce + 1) with hlt | heq | hgt
  · refine ⟨?_, ?_, ?_⟩
    · simp [AccountStorage.update_nonce, hget, hsucc, bind, PRes.bind, hlt]
    · simp [AccountStorage.update_nonce, hget, hsucc, bind, PRes.bind, hlt]
      omega
    · intro he; omega
  · refine ⟨?_, ?_, ?_⟩
    · simp [AccountStorage.update_nonce, hget, hsucc, bind, PRes.bind, heq,
        AccountStorage.upsert]
    · simp [AccountStorage.update_nonce, hget, hsucc, bind, PRes.bind, heq,
        AccountStorage.upsert]
    · intro _
      constructor
      · simp [AccountStorage.update_nonce, hget, hsucc, bind, PRes.bind, heq,
          AccountStorage.upsert]
      · rw [AccountStorage.lookup_insertRaw_self]
  · refine ⟨?_, ?_, ?_⟩
    · simp [AccountStorage.update_nonce, hget, hsucc, bind, PRes.bind,
        Nat.not_lt.mpr (Nat.le_of_lt hgt), hgt]
    · simp [AccountStorage.update_nonce, hget, hsucc, bind, PRes.bind,
        Nat.not_lt.mpr (Nat.le_of_lt hgt), hgt]
    · intro he; omega

/-- C5, amended, witness: the theorem applied to the fixture store
(account A, nonce 0) with submitted nonce 1. -/
theorem C5_amended_update_nonce_witness :
    accsA.update_nonce addrA 1 =
      (.ok 1, accsA.insertRaw addrA { AccountData.new none with nonce := 1 }) :=
  ((C5_amended_update_nonce accsA addrA (AccountData.new none) 1 (by decide)
    (by decide)).2.2 (by decide)).1

/-- C8, counterexample: the genesis block's `transactions_root` is not the
zero hash — `Block::new` overwrites the zero passed by `Block::genesis`
with `Transaction::root_hash([])`, the empty-trie root
`keccak256(0x80) = 0x56e8…b421`. -/
theorem C8_counterexample_transactions_root :
    (Block.genesis extC).getOk?.map Block.transactions_root = some emptyTrieRoot ∧
    emptyTrieRoot ≠ H256.zero := by
  refine ⟨by decide, by decide⟩

/-- C8, amended: the genesis block has number 0, zero parent hash, no
transactions, zero state root, and `transactions_root` equal to the
empty-trie root (not the zero hash); its `hash` is the Keccak-256 of the
block's binary serialization taken with `hash = None`. -/
theorem C8_amended_genesis_shape (E : ExtDeps) :
    ∃ g : Block, Block.genesis E = .ok g ∧ g.number = 0 ∧
      g.parent_hash = H256.zero ∧ g.transactions = [] ∧
      g.transactions_root = emptyTrieRoot ∧ g.state_root = H256.zero ∧
      g.hash = some (keccak256 (E.serBlock { g with hash := none })) := by
  refine ⟨_, rfl, ?_⟩
  simp [Block.genesis, Block.new, Transaction.root_hash, Transaction.to_trie,
    bind, PRes.bind]

/-- C10, counterexample: a contract deployment whose account creation
fails does not make `process_transaction` return `Ok`.  On the empty
store, deploying from the missing address C fails the creation with
`StorageNotFound`, and `process_transaction` then returns that same error
from the subsequent nonce update instead of `Ok`. -/
theorem C10_counterexample_deploy_failure_errors :
    AccountStorage.add_contract_account extC [] addrC [0] =
      (.err (.StorageNotFound addrC), []) ∧
    BlockChain.process_transaction extC [] txDeployC =
      (.err (.StorageNotFound addrC), []) := by
  refine ⟨by decide, by decide⟩

/-- C10, amended: when the contract-account creation of a deployment
transaction fails with an error, that error is discarded (`.ok()`):
execution continues with `contract_address = None` into the nonce update,
and `process_transaction` returns `Ok` with a `None` contract address in
the receipt exactly when `update_nonce` succeeds, and the nonce-update
error otherwise — the creation error itself is never surfaced. -/
theorem C10_amended_deploy_failure_discarded (E : ExtDeps) (accounts : AccountStorage)
    (t : Transaction) (n : Nat) (h : H256) (d : ByteL) (e : ChainError)
    (hh : t.hash = some h) (hn : t.nonce = some n) (hto : t.to_ = none)
    (hd : t.data = some d)
    (hfail : AccountStorage.add_contract_account E accounts t.from_ d =
      (.err e, accounts)) :
    BlockChain.process_transaction E accounts t =
      (match (AccountStorage.update_nonce accounts t.from_ n).1 with
       | .ok _ =>
         .ok { block_hash := none, block_number := none, contract_address := none,
               transaction_hash := h }
       | .err e' => .err e'
       | .trap => .trap,
       (AccountStorage.update_nonce accounts t.from_ n).2) := by
  simp only [BlockChain.process_transaction, Transaction.transaction_hash,
    Transaction.kind, hh, hn, hto, hd, hfail]
  rcases hu : AccountStorage.update_nonce accounts t.from_ n with ⟨r, s'⟩
  cases r <;> simp

/-- C10, amended, witness: the theorem applied to the deployment from the
missing address C on the empty store; the nonce update fails with
`StorageNotFound`, which is the surfaced result. -/
theorem C10_amended_deploy_failure_discarded_witness :
    BlockChain.process_transaction extC [] txDeployC =
      (.err (.StorageNotFound addrC), []) := by
  have h := C10_amended_deploy_failure_discarded extC [] txDeployC 1
    (List.replicate 32 8) [0] (.StorageNotFound addrC) rfl rfl rfl rfl (by decide)
  rw [h]
  decide

/-- C9: sign/verify round-trip.  For every ECDSA backend satisfying the
secp256k1 crate's contract — compact signatures are 64 bytes with recovery
id 0 or 1, they re-parse, recovery on the signed digest returns the
signer's public key, and verification against that key succeeds — and for
every transaction and secret key, verifying the signed transaction against
the address of the signer's public key returns `Ok(true)`. -/
theorem C9_sign_verify_round_trip (E : ExtDeps) (api : EcdsaApi)
    (hlen : ∀ m k, (api.sign_ecdsa_recoverable m k).2.length = 64)
    (hrecid : ∀ m k, (api.sign_ecdsa_recoverable m k).1 ≤ 1)
    (hparse : ∀ m k, api.parse_recoverable_ok (api.sign_ecdsa_recoverable m k).2 = true)
    (hparsec : ∀ m k, api.parse_compact_ok (api.sign_ecdsa_recoverable m k).2 = true)
    (hrecover : ∀ m k,
      api.recover_ecdsa m (api.sign_ecdsa_recoverable m k) = some (api.pk_of k))
    (hverify : ∀ m k,
      api.verify_ecdsa m (api.sign_ecdsa_recoverable m k).2 (api.pk_of k) = true)
    (t : Transaction) (sk : Nat) :
    Transaction.verify api (Transaction.sign E api t sk)
      (Utils.public_key_address api (api.pk_of sk)) = .ok true := by
  rcases hps : api.sign_ecdsa_recoverable (keccak256 (E.serTx t)) sk with ⟨v0, sb⟩
  have h1 : sb.length = 64 := by
    have := hlen (keccak256 (E.serTx t)) sk; rw [hps] at this; exact this
  have h2 : v0 ≤ 1 := by
    have := hrecid (keccak256 (E.serTx t)) sk; rw [hps] at this; exact this
  have h3 : api.parse_recoverable_ok sb = true := by
    have := hparse (keccak256 (E.serTx t)) sk; rw [hps] at this; exact this
  have h4 : api.parse_compact_ok sb = true := by
    have := hparsec (keccak256 (E.serTx t)) sk; rw [hps] at this; exact this
  have h5 : api.recover_ecdsa (keccak256 (E.serTx t)) (v0, sb) = some (api.pk_of sk) := by
    have := hrecover (keccak256 (E.serTx t)) sk; rw [hps] at this; exact this
  have h6 : api.verify_ecdsa (keccak256 (E.serTx t)) sb (api.pk_of sk) = true := by
    have := hverify (keccak256 (E.serTx t)) sk; rw [hps] at this; exact this
  have hv31 : ¬ (v0 ≥ 2 ^ 31) := by omega
  have hv3 : ¬ (v0 > 3) := by omega
  have hpieces : Transaction.recover_pieces api (Transaction.sign E api t sk) =
      .ok (E.serTx t, v0, sb) := by
    simp [Transaction.sign, Utils.sign_recovery, Utils.hash_message, hps,
      Utils.signatureOfRecoverable, Transaction.recover_pieces,
      Utils.recoverableOfSignature, bind, PRes.bind, List.take_append_drop,
      hv31, hv3, h1, h3]
    rw [if_neg (show ¬ ((2147483648 : Nat) ≤ v0) by omega)]
  have hrec : Utils.recover_public_key api (E.serTx t) sb v0 = .ok (api.pk_of sk) := by
    simp [Utils.recover_public_key, Utils.hash_message, hv3, h1, h3, h5]
  have hver : Utils.verify api (E.serTx t) sb (api.pk_of sk) = .ok true := by
    simp [Utils.verify, Utils.hash_message, h1, h4, h6]
  have haddr : (decide (Utils.public_key_address api (api.pk_of sk) =
      Utils.public_key_address api (api.pk_of sk)) : Bool) = true := by simp
  simp [Transaction.verify, hpieces, hrec, hver, haddr, bind, PRes.bind]

/-- C9, witness: the theorem applied to the fixture backend `apiC` (which
satisfies the contract definitionally), the fixture transaction and secret
key 7. -/
theorem C9_sign_verify_round_trip_witness :
    Transaction.verify apiC (Transaction.sign extC apiC txReg 7)
      (Utils.public_key_address apiC (apiC.pk_of 7)) = .ok true :=
  C9_sign_verify_round_trip extC apiC (fun _ _ => rfl) (fun _ _ => Nat.zero_le 1)
    (fun _ _ => rfl) (fun _ _ => rfl) (fun _ _ => rfl) (fun _ _ => rfl) txReg 7

/-- Reduction of `bind` on a success. -/
theorem PRes.bind_ok {α β : Type} (a : α) (f : α → PRes β) :
    PRes.bind (.ok a) f = f a := rfl

/-- Reduction of `bind` on an error. -/
theorem PRes.bind_err {α β : Type} (e : ChainError) (f : α → PRes β) :
    PRes.bind (.err e) f = .err e := rfl

/-- Reduction of `bind` on a panic. -/
theorem PRes.bind_trap {α β : Type} (f : α → PRes β) :
    PRes.bind (.trap : PRes α) f = .trap := rfl

/-- `get_current_block` succeeds exactly on the last stored block. -/
theorem BlockChain.get_current_block_ok (bc : BlockChain) (c : Block) :
    bc.get_current_block = .ok c ↔ bc.blocks.getLast? = some c := by
  unfold BlockChain.get_current_block
  cases bc.blocks.getLast? <;> simp

/-- A successful `U64` addition returns the exact sum. -/
theorem u64Add_ok (a b c : Nat) (h : u64Add a b = .ok c) : c = a + b := by
  unfold u64Add at h
  split at h <;> simp_all

/-- `block_hash` succeeds exactly on a stored hash. -/
theorem Block.block_hash_ok (b : Block) (x : H256) :
    b.block_hash = .ok x ↔ b.hash = some x := by
  unfold Block.block_hash
  cases b.hash <;> simp

/-- The block built by `Block::new` carries the requested number, parent
hash and transactions, and a computed hash. -/
theorem Block.new_fields (E : ExtDeps) (number : Nat) (ph : H256)
    (txs : List Transaction) (root : H256) (b : Block)
    (h : Block.new E number ph txs root = .ok b) :
    b.number = number ∧ b.parent_hash = ph ∧ b.transactions = txs ∧ b.hash.isSome := by
  cases hr : Transaction.root_hash E txs with
  | ok r =>
    rw [Block.new, hr] at h
    simp only [bind, PRes.bind_ok] at h
    cases h
    simp
  | err e => rw [Block.new, hr] at h; simp only [bind, PRes.bind_err] at h; cases h
  | trap => rw [Block.new, hr] at h; simp only [bind, PRes.bind_trap] at h; cases h

/-- Shape of a successful `new_block` call: the chain gains exactly one
block at the end, numbered one above the previous tip, linked to the
tip's hash, holding the given transactions; accounts, mempool and
receipts are untouched. -/
theorem BlockChain.new_block_ok_shape (E : ExtDeps) (bc : BlockChain)
    (txs : List Transaction) (root : H256) (p : Block × BlockChain)
    (h : bc.new_block E txs root = .ok p) :
    ∃ current nb, bc.blocks.getLast? = some current ∧
      p.2.blocks = bc.blocks ++ [nb] ∧
      p.2.accounts = bc.accounts ∧ p.2.mempool = bc.mempool ∧
      p.2.receipts = bc.receipts ∧
      nb.number = current.number + 1 ∧ some nb.parent_hash = current.hash ∧
      nb.hash.isSome ∧ nb.transactions = txs := by
  unfold BlockChain.new_block at h
  cases hcb : bc.get_current_block with
  | ok current =>
    simp only [hcb, bind, PRes.bind_ok] at h
    cases hnum : u64Add current.number 1 with
    | ok number =>
      simp only [hnum, PRes.bind_ok] at h
      cases hph : current.block_hash with
      | ok ph =>
        simp only [hph, PRes.bind_ok] at h
        cases hbn : Block.new E number ph txs root with
        | ok nb =>
          simp only [hbn, PRes.bind_ok] at h
          cases hgb : BlockChain.get_block_by_number
              { bc with blocks := bc.blocks ++ [nb] } number with
          | ok ret =>
            simp only [hgb, PRes.bind_ok] at h
            cases h
            obtain ⟨hn, hp, ht, hh⟩ := Block.new_fields E number ph txs root nb hbn
            exact ⟨current, nb, (BlockChain.get_current_block_ok bc current).mp hcb,
              rfl, rfl, rfl, rfl,
              by rw [hn, u64Add_ok current.number 1 number hnum],
              by rw [hp, ← (Block.block_hash_ok current ph).mp hph],
              hh, ht⟩
          | err e => simp only [hgb, PRes.bind_err] at h; cases h
          | trap => simp only [hgb, PRes.bind_trap] at h; cases h
        | err e => simp only [hbn, PRes.bind_err] at h; cases h
        | trap => simp only [hbn, PRes.bind_trap] at h; cases h
      | err e => simp only [hph, PRes.bind_err] at h; cases h
      | trap => simp only [hph, PRes.bind_trap] at h; cases h
    | err e => simp only [hnum, PRes.bind_err] at h; cases h
    | trap => simp only [hnum, PRes.bind_trap] at h; cases h
  | err e => simp only [hcb, bind, PRes.bind_err] at h; cases h
  | trap => simp only [hcb, bind, PRes.bind_trap] at h; cases h

/-- Shape of a successful `BlockChain::new`: a single stored block with
number 0 and a computed hash. -/
theorem BlockChain.new_genesis_shape (E : ExtDeps) (bc : BlockChain)
    (h : BlockChain.new E = .ok bc) :
    ∃ g, bc.blocks = [g] ∧ g.number = 0 ∧ g.hash.isSome := by
  unfold BlockChain.new at h
  cases hg : Block.genesis E with
  | ok g =>
    simp only [hg, bind, PRes.bind_ok] at h
    cases h
    unfold Block.genesis at hg
    obtain ⟨hn, _, _, hh⟩ := Block.new_fields E 0 H256.zero [] H256.zero g hg
    exact ⟨g, rfl, hn, hh⟩
  | err e => simp only [hg, bind, PRes.bind_err] at h; cases h
  | trap => simp only [hg, bind, PRes.bind_trap] at h; cases h

/-- Every reachable chain state satisfies the structural block invariant. -/
theorem reachable_chainInv (E : ExtDeps) (bc : BlockChain) (h : Reachable E bc) :
    chainInv bc.blocks := by
  induction h with
  | genesis bc h =>
    obtain ⟨g, hbs, hn, hh⟩ := BlockChain.new_genesis_shape E bc h
    rw [hbs]
    refine ⟨by simp, ?_, ?_⟩
    · intro i b hib
      cases i with
      | zero => simp at hib; rw [hib] at hn hh; exact ⟨hn, hh⟩
      | succ n => simp at hib
    · intro i b b' hib hib'
      cases i <;> simp at hib'
  | step bc bc' txs root b hr h ih =>
    obtain ⟨current, nb, hlast, hbs, _, _, _, hnum, hpar, hh, _⟩ :=
      BlockChain.new_block_ok_shape E bc txs root (b, bc') h
    rw [hbs]
    obtain ⟨hne, hidx, hlink⟩ := ih
    have hlen : 0 < bc.blocks.length := List.length_pos.mpr hne
    have hcur : bc.blocks[bc.blocks.length - 1]? = some current := by
      rw [← List.getLast?_eq_getElem?]; exact hlast
    have hcurnum : current.number = bc.blocks.length - 1 := (hidx _ _ hcur).1
    refine ⟨by simp, ?_, ?_⟩
    · intro i b0 hib
      by_cases hi : i < bc.blocks.length
      · rw [List.getElem?_append_left hi] at hib
        exact hidx i b0 hib
      · have hle : bc.blocks.length ≤ i := Nat.le_of_not_lt hi
        rcases Nat.eq_or_lt_of_le hle with heq | hlt
        · rw [← heq, List.getElem?_concat_length] at hib
          cases hib
          refine ⟨?_, hh⟩
          rw [hnum, hcurnum]
          omega
        · rw [List.getElem?_eq_none (by simp; omega)] at hib
          cases hib
    · intro i b0 b1 hib hib'
      by_cases hi : i + 1 < bc.blocks.length
      · rw [List.getElem?_append_left hi] at hib'
        rw [List.getElem?_append_left (by omega)] at hib
        exact hlink i b0 b1 hib hib'
      · have hle : bc.blocks.length ≤ i + 1 := Nat.le_of_not_lt hi
        rcases Nat.eq_or_lt_of_le hle with heq | hlt
        · rw [← heq, List.getElem?_concat_length] at hib'
          cases hib'
          rw [List.getElem?_append_left (by omega)] at hib
          have hieq : i = bc.blocks.length - 1 := by omega
          rw [hieq] at hib
          rw [hib] at hcur
          cases hcur
          exact hpar
        · rw [List.getElem?_eq_none (by simp; omega)] at hib'
          cases hib'

/-- C7: hash-chain invariant.  In every reachable chain state (genesis
followed by any number of `new_block` calls), the block stored at
position 0 has number 0, and for every `N ≥ 1` with blocks stored at `N`
and `N - 1`, the block at `N` has number `N` and its `parent_hash` is the
hash of the block at `N - 1`. -/
theorem C7_block_chaining (E : ExtDeps) (bc : BlockChain) (h : Reachable E bc) :
    (∀ g : Block, bc.blocks[0]? = some g → g.number = 0) ∧
    ∀ (N : Nat) (b prev : Block), 1 ≤ N → bc.blocks[N]? = some b →
      bc.blocks[N - 1]? = some prev →
      b.number = N ∧ some b.parent_hash = prev.hash := by
  obtain ⟨hne, hidx, hlink⟩ := reachable_chainInv E bc h
  refine ⟨fun g hg => (hidx 0 g hg).1, fun N b prev hN hb hprev => ?_⟩
  refine ⟨(hidx N b hb).1, ?_⟩
  have hN1 : N - 1 + 1 = N := by omega
  exact hlink (N - 1) prev b hprev (by rw [hN1]; exact hb)

/-- C7, witness: the theorem applied to the freshly constructed chain
`bcG`, reachable by the `genesis` rule; its stored block 0 is the genesis
block, of number 0. -/
theorem C7_block_chaining_witness : genC.number = 0 :=
  (C7_block_chaining extC bcG (Reachable.genesis bcG (by decide))).1 genC (by decide)

/-- Stamping receipts only touches the receipts map: mempool, blocks and
accounts pass through. -/
theorem stampReceipts_fields (bc : BlockChain) (block : Block)
    (rs : List TransactionReceipt) :
    (stampReceipts bc block rs).mempool = bc.mempool ∧
    (stampReceipts bc block rs).blocks = bc.blocks ∧
    (stampReceipts bc block rs).accounts = bc.accounts := by
  induction rs generalizing bc with
  | nil => simp [stampReceipts]
  | cons r rest ih => simp [stampReceipts, ih]

/-- The processing loop agrees with the reference trace: it ends in the
traced account store, appends exactly the successful transactions to
`processed`, and re-appends exactly the `NonceTooHigh` failures (in drain
order) to the mempool. -/
theorem processLoop_trace (E : ExtDeps) (txs : List Transaction) :
    ∀ (bc : BlockChain) (receipts : List TransactionReceipt)
      (processed : List Transaction)
      (trace : List (Transaction × Option ChainError)) (accT : AccountStorage),
      tickTrace E bc.accounts txs = .ok (trace, accT) →
      ∃ rs, BlockChain.processLoop E bc receipts processed txs =
        .ok (receipts ++ rs,
             processed ++ (trace.filter fun p => Option.isNone p.2).map Prod.fst,
             { bc with
               accounts := accT
               mempool := bc.mempool ++
                 (trace.filter fun p => isHighErr p.2).map Prod.fst }) := by
  induction txs with
  | nil =>
    intro bc receipts processed trace accT ht
    simp only [tickTrace] at ht
    cases ht
    exact ⟨[], by simp [BlockChain.processLoop]⟩
  | cons t rest ih =>
    intro bc receipts processed trace accT ht
    rcases hpt : BlockChain.process_transaction E bc.accounts t with ⟨r, acc'⟩
    cases r with
    | ok r0 =>
      simp only [tickTrace, hpt] at ht
      cases htr : tickTrace E acc' rest with
      | ok q =>
        obtain ⟨tr, a⟩ := q
        simp only [htr, bind, PRes.bind_ok] at ht
        cases ht
        obtain ⟨rs, hloop⟩ :=
          ih { bc with accounts := acc' } (receipts ++ [r0]) (processed ++ [t]) tr accT htr
        refine ⟨[r0] ++ rs, ?_⟩
        simp only [BlockChain.processLoop, hpt, hloop]
        simp [isHighErr]
      | err e2 => simp only [htr, bind, PRes.bind_err] at ht; cases ht
      | trap => simp only [htr, bind, PRes.bind_trap] at ht; cases ht
    | err e =>
      simp only [tickTrace, hpt] at ht
      cases htr : tickTrace E acc' rest with
      | ok q =>
        obtain ⟨tr, a⟩ := q
        simp only [htr, bind, PRes.bind_ok] at ht
        cases ht
        cases e with
        | NonceTooHigh n k =>
          obtain ⟨rs, hloop⟩ :=
            ih
              { bc with
                accounts := acc'
                mempool := bc.mempool ++ [t] } receipts processed tr accT htr
          refine ⟨rs, ?_⟩
          simp only [BlockChain.processLoop, hpt, hloop]
          simp [isHighErr]
        | AccountNotFound k =>
          obtain ⟨rs, hloop⟩ := ih { bc with accounts := acc' } receipts processed tr accT htr
          exact ⟨rs, by simp only [BlockChain.processLoop, hpt, hloop]; simp [isHighErr]⟩
        | StorageNotFound k =>
          obtain ⟨rs, hloop⟩ := ih { bc with accounts := acc' } receipts processed tr accT htr
          exact ⟨rs, by simp only [BlockChain.processLoop, hpt, hloop]; simp [isHighErr]⟩
        | StoragePutError k =>
          obtain ⟨rs, hloop⟩ := ih { bc with accounts := acc' } receipts processed tr accT htr
          exact ⟨rs, by simp only [BlockChain.processLoop, hpt, hloop]; simp [isHighErr]⟩
        | NonceTooLow n k =>
          obtain ⟨rs, hloop⟩ := ih { bc with accounts := acc' } receipts processed tr accT htr
          exact ⟨rs, by simp only [BlockChain.processLoop, hpt, hloop]; simp [isHighErr]⟩
        | BlockNotFound w =>
          obtain ⟨rs, hloop⟩ := ih { bc with accounts := acc' } receipts processed tr accT htr
          exact ⟨rs, by simp only [BlockChain.processLoop, hpt, hloop]; simp [isHighErr]⟩
        | InvalidBlockNumber w =>
          obtain ⟨rs, hloop⟩ := ih { bc with accounts := acc' } receipts processed tr accT htr
          exact ⟨rs, by simp only [BlockChain.processLoop, hpt, hloop]; simp [isHighErr]⟩
        | NotAContractAccount w =>
          obtain ⟨rs, hloop⟩ := ih { bc with accounts := acc' } receipts processed tr accT htr
          exact ⟨rs, by simp only [BlockChain.processLoop, hpt, hloop]; simp [isHighErr]⟩
        | RuntimeError w m =>
          obtain ⟨rs, hloop⟩ := ih { bc with accounts := acc' } receipts processed tr accT htr
          exact ⟨rs, by simp only [BlockChain.processLoop, hpt, hloop]; simp [isHighErr]⟩
        | MissingTransactionNonce w =>
          obtain ⟨rs, hloop⟩ := ih { bc with accounts := acc' } receipts processed tr accT htr
          exact ⟨rs, by simp only [BlockChain.processLoop, hpt, hloop]; simp [isHighErr]⟩
        | MissingTransactionHash =>
          obtain ⟨rs, hloop⟩ := ih { bc with accounts := acc' } receipts processed tr accT htr
          exact ⟨rs, by simp only [BlockChain.processLoop, hpt, hloop]; simp [isHighErr]⟩
        | MissingBlockHash =>
          obtain ⟨rs, hloop⟩ := ih { bc with accounts := acc' } receipts processed tr accT htr
          exact ⟨rs, by simp only [BlockChain.processLoop, hpt, hloop]; simp [isHighErr]⟩
        | InvalidTransaction w =>
          obtain ⟨rs, hloop⟩ := ih { bc with accounts := acc' } receipts processed tr accT htr
          exact ⟨rs, by simp only [BlockChain.processLoop, hpt, hloop]; simp [isHighErr]⟩
        | EncodingDecodingError w =>
          obtain ⟨rs, hloop⟩ := ih { bc with accounts := acc' } receipts processed tr accT htr
          exact ⟨rs, by simp only [BlockChain.processLoop, hpt, hloop]; simp [isHighErr]⟩
        | TransactionNotFound w =>
          obtain ⟨rs, hloop⟩ := ih { bc with accounts := acc' } receipts processed tr accT htr
          exact ⟨rs, by simp only [BlockChain.processLoop, hpt, hloop]; simp [isHighErr]⟩
        | TransactionNotVerified =>
          obtain ⟨rs, hloop⟩ := ih { bc with accounts := acc' } receipts processed tr accT htr
          exact ⟨rs, by simp only [BlockChain.processLoop, hpt, hloop]; simp [isHighErr]⟩
        | CannotCreateRootHash =>
          obtain ⟨rs, hloop⟩ := ih { bc with accounts := acc' } receipts processed tr accT htr
          exact ⟨rs, by simp only [BlockChain.processLoop, hpt, hloop]; simp [isHighErr]⟩
        | TrieError w =>
          obtain ⟨rs, hloop⟩ := ih { bc with accounts := acc' } receipts processed tr accT htr
          exact ⟨rs, by simp only [BlockChain.processLoop, hpt, hloop]; simp [isHighErr]⟩
        | ConversionError w =>
          obtain ⟨rs, hloop⟩ := ih { bc with accounts := acc' } receipts processed tr accT htr
          exact ⟨rs, by simp only [BlockChain.processLoop, hpt, hloop]; simp [isHighErr]⟩
        | RecoverError w =>
          obtain ⟨rs, hloop⟩ := ih { bc with accounts := acc' } receipts processed tr accT htr
          exact ⟨rs, by simp only [BlockChain.processLoop, hpt, hloop]; simp [isHighErr]⟩
        | VerifyError w =>
          obtain ⟨rs, hloop⟩ := ih { bc with accounts := acc' } receipts processed tr accT htr
          exact ⟨rs, by simp only [BlockChain.processLoop, hpt, hloop]; simp [isHighErr]⟩
      | err e2 => simp only [htr, bind, PRes.bind_err] at ht; cases ht
      | trap => simp only [htr, bind, PRes.bind_trap] at ht; cases ht
    | trap => simp only [tickTrace, hpt] at ht; cases ht

/-- C6: error triage of the tick.  For a tick that drains a non-empty
mempool and completes, a drained transaction ends up back in the mempool
exactly when its processing failed with `NonceTooHigh` (re-appended at
the tail, in drain order), and it ends up in the sealed block's
transaction list exactly when its processing succeeded; every other
failure (NonceTooLow, decode errors, contract failures, missing accounts,
…) leaves it in neither place. -/
theorem C6_error_triage (E : ExtDeps) (bc : BlockChain)
    (trace : List (Transaction × Option ChainError)) (accT : AccountStorage)
    (bc' : BlockChain)
    (hne : bc.mempool ≠ [])
    (ht : tickTrace E bc.accounts bc.mempool = .ok (trace, accT))
    (hp : BlockChain.process_transactions E bc = .ok bc') :
    bc'.mempool = (trace.filter fun p => isHighErr p.2).map Prod.fst ∧
    bc'.blocks.getLast?.map Block.transactions =
      some ((trace.filter fun p => Option.isNone p.2).map Prod.fst) := by
  unfold BlockChain.process_transactions at hp
  have hcond : ¬ (bc.mempool.isEmpty = true) := by
    simp only [List.isEmpty_iff]; exact hne
  rw [if_neg hcond] at hp
  obtain ⟨rs, hloop⟩ :=
    processLoop_trace E bc.mempool { bc with mempool := [] } [] [] trace accT ht
  simp only [hloop, bind, PRes.bind_ok] at hp
  cases hnb : BlockChain.new_block E
      { bc with
        accounts := accT
        mempool := [] ++ (trace.filter fun p => isHighErr p.2).map Prod.fst }
      ([] ++ (trace.filter fun p => Option.isNone p.2).map Prod.fst)
      (E.accountsRoot accT) with
  | ok p =>
    obtain ⟨blk, bcF⟩ := p
    rw [hnb] at hp
    simp only [PRes.bind_ok] at hp
    cases hp
    obtain ⟨current, nb, _, hblocks, _, hmem, _, _, _, _, htx⟩ :=
      BlockChain.new_block_ok_shape E _ _ _ (blk, bcF) hnb
    obtain ⟨hm, hb, _⟩ := stampReceipts_fields bcF blk ([] ++ rs)
    constructor
    · rw [hm, hmem]
      simp
    · rw [hb, hblocks, List.getLast?_concat]
      simp [htx]
  | err e => rw [hnb] at hp; simp only [PRes.bind_err] at hp; cases hp
  | trap => rw [hnb] at hp; simp only [PRes.bind_trap] at hp; cases hp

/-- The trace of the fixture tick: the gapped-nonce transfer fails
`NonceTooHigh` (after its transfer already mutated the store, as in the
source), the valid transfer succeeds, the invalid transaction fails
classification. -/
def traceTick : List (Transaction × Option ChainError) :=
  [(txHigh, some (.NonceTooHigh 3 addrA)), (txReg, none),
   (txBad, some (.InvalidTransaction "kind"))]

/-- The account store after the fixture tick. -/
def accTick : AccountStorage :=
  [(addrA, { nonce := 1, balance := 9980, code_hash := none }),
   (addrB, { nonce := 0, balance := 10020, code_hash := none })]

/-- The chain state after the fixture tick. -/
def bcAfterTick : BlockChain :=
  match BlockChain.process_transactions extC bcTick with
  | .ok bc => bc
  | _ => bcTick

/-- C6, witness: the theorem applied to the fixture tick; the requeued
transactions are exactly the `NonceTooHigh` one and the sealed block's
transactions exactly the successful one. -/
theorem C6_error_triage_witness :
    bcAfterTick.mempool = (traceTick.filter fun p => isHighErr p.2).map Prod.fst ∧
    bcAfterTick.blocks.getLast?.map Block.transactions =
      some ((traceTick.filter fun p => Option.isNone p.2).map Prod.fst) :=
  C6_error_triage extC bcTick traceTick accTick bcAfterTick (by decide) (by decide)
    (by decide)
